import Mathlib

/-!
Shallow embedding of the dataexplorer core (graph builder, adjacency index,
path analysis, impact analysis, graph filter) and proofs of its specified
properties.

Source files embedded here:
  * models/data-types (interfaces Dataset, DataEntity, Relationship, ...)
  * services/analysis/AnalysisService (findPaths, analyzeImpact,
    buildAdjacencyMap, findAllPaths, findIndirectImpacts)
  * services/graph-builder/GraphBuilderService.buildDataset
  * services/graph-filter/GraphFilterService.filterDataset

Modelling conventions:
  * JavaScript strings are Lean String; scalar cell values are modelled after
    coercion via String(), so a row is an association list from column name to
    an optional string (none = the property is absent / undefined).
  * JavaScript arrays mutated by push are modelled as lists grown by append,
    which yields the same element order; Set objects are modelled as lists
    used only through membership.
  * The recursive traversals (findAllPaths, findIndirectImpacts) recurse on an
    explicit fuel argument.  In the source, findAllPaths never recurses once
    currentPath.length reaches maxLength and findIndirectImpacts never
    recurses once currentDepth reaches maxDepth, so fuel maxLength
    (respectively maxDepth - 1, the number of indirect layers still allowed
    when currentDepth starts at 1) makes the fuel-exhaustion branch
    unreachable and the embedding compute exactly the traversal of the
    source.
-/

/-- Entity record from models/data-types: id, type, label, metadata. -/
structure DataEntity where
  mk ::
  id : String
  type : String
  label : String
  metadata : List (String × String)
deriving Repr, DecidableEq

/-- Relationship record from models/data-types. -/
structure Relationship where
  mk ::
  id : String
  source : String
  target : String
  type : String
  metadata : List (String × String)
deriving Repr, DecidableEq

/-- Dataset record from models/data-types. -/
structure Dataset where
  mk ::
  entities : List DataEntity
  relationships : List Relationship
deriving Repr, DecidableEq

/-- Ids of the entities of a dataset, in order. -/
def entityIds (ds : Dataset) : List String :=
  ds.entities.map (fun e => e.id)

/-- Whether AnalysisService.buildAdjacencyMap has an entry for `x`: the map is
initialised with one record per entity id, so an entry exists exactly when
some entity carries this id. -/
def hasNode (ds : Dataset) (x : String) : Bool :=
  (entityIds ds).contains x

/-- The outgoing edge list `adjacencyMap[x]?.outgoing || []` of
AnalysisService.buildAdjacencyMap: for an entity id, all relationships whose
source is `x` (in relationship order, skipping relationships with an empty
source or target, as the builder does); for an id with no entry, the empty
list. -/
def outgoing (ds : Dataset) (x : String) : List (String × String) :=
  if hasNode ds x then
    (ds.relationships.filter
        (fun r => !(r.source == "") && !(r.target == "") && r.source == x)).map
      (fun r => (r.target, r.id))
  else []

/-- One recorded path of AnalysisService.findAllPaths: copies of the node and
edge lists plus the metadata fields length and hops. -/
structure PathRec where
  mk ::
  nodes : List String
  edges : List String
  metaLength : Nat
  metaHops : Nat
deriving Repr, DecidableEq

/-- The record pushed onto allPaths when the target is reached. -/
def mkPathRec (path edges : List String) : PathRec :=
  ⟨path, edges, path.length, path.length - 1⟩

/-- Loop over the outgoing edges of the current node in
AnalysisService.findAllPaths: each unvisited target is pushed, recursed into
(through `rec`, the search from the next node), and backtracked, so the
recorded paths are the concatenation of the recursions in edge order. -/
def dfsEdges (rec : String → List String → List String → List String → List PathRec) :
    List (String × String) → List String → List String → List String → List PathRec
  | [], _, _, _ => []
  | (t, eid) :: rest, path, edges, visited =>
    (if visited.contains t then []
     else rec t (path ++ [t]) (edges ++ [eid]) (t :: visited))
      ++ dfsEdges rec rest path edges visited

/-- AnalysisService.findAllPaths: depth-first backtracking search recording
every simple path from the current node to `target` whose node count stays
within `maxLength`.  Recursion is on `fuel`; fuel `maxLength` at the top
level is enough for the zero-fuel branch to be unreachable (each recursion
step lengthens the path, and paths longer than maxLength are pruned). -/
def findAllPaths (out : String → List (String × String)) (target : String)
    (maxLength : Nat) :
    Nat → String → List String → List String → List String → List PathRec
  | 0, current, path, edges, _ =>
    if current = target then [mkPathRec path edges] else []
  | fuel + 1, current, path, edges, visited =>
    if current = target then [mkPathRec path edges]
    else if maxLength ≤ path.length then []
    else dfsEdges (findAllPaths out target maxLength fuel) (out current) path edges visited

/-- Metrics of a PathAnalysisResult. -/
structure PathMetrics where
  mk ::
  totalPaths : Nat
  shortestPathLength : Nat
  longestPathLength : Nat
deriving Repr, DecidableEq

/-- PathAnalysisResult from models/data-types. -/
structure PathAnalysisResult where
  mk ::
  paths : List PathRec
  metrics : PathMetrics
deriving Repr, DecidableEq

/-- Minimum of a list of Nat, 0 when empty (Math.min over path lengths,
guarded by `paths.length ?`). -/
def minOrZero : List Nat → Nat
  | [] => 0
  | l :: ls => ls.foldl Nat.min l

/-- Maximum of a list of Nat, 0 when empty (Math.max over path lengths,
guarded by `paths.length ?`). -/
def maxOrZero : List Nat → Nat
  | [] => 0
  | l :: ls => ls.foldl Nat.max l

/-- One iteration of the double loop of AnalysisService.findPaths: identical
pairs and pairs whose source or target has no adjacency entry contribute
nothing; otherwise findAllPaths runs seeded with the source node. -/
def pairPaths (ds : Dataset) (maxLength : Nat) (s t : String) : List PathRec :=
  if s = t then []
  else if !hasNode ds s then []
  else if !hasNode ds t then []
  else findAllPaths (outgoing ds) t maxLength maxLength s [s] [] [s]

/-- AnalysisService.findPaths: the shared paths array accumulates the paths
recorded for every pair of the cross product of sourceIds and targetIds in
iteration order, which is the flattened list below. -/
def findPaths (ds : Dataset) (sourceIds targetIds : List String)
    (maxLength : Nat) : PathAnalysisResult :=
  let paths := sourceIds.flatMap (fun s =>
    targetIds.flatMap (fun t => pairPaths ds maxLength s t))
  let lens := paths.map (fun p => p.nodes.length)
  ⟨paths, ⟨paths.length, minOrZero lens, maxOrZero lens⟩⟩

/-- Metrics of an ImpactAnalysisResult. -/
structure ImpactMetrics where
  mk ::
  totalImpactedNodes : Nat
  maxDepth : Nat
  criticalPaths : Nat
deriving Repr, DecidableEq

/-- ImpactAnalysisResult from models/data-types. -/
structure ImpactAnalysisResult where
  mk ::
  directImpact : List String
  indirectImpact : List String
  metrics : ImpactMetrics
deriving Repr, DecidableEq

/-- The direct-neighbor loop of AnalysisService.analyzeImpact: each neighbor
target not yet visited is appended to directImpact and marked visited. -/
def addDirect : List (String × String) → List String → List String →
    List String × List String
  | [], vis, direct => (vis, direct)
  | (t, _) :: rest, vis, direct =>
    if vis.contains t then addDirect rest vis direct
    else addDirect rest (t :: vis) (direct ++ [t])

/-- The neighbor loop of AnalysisService.findIndirectImpacts for one layer
node: each unvisited target is appended to indirectImpact, marked visited and
queued for the next layer. -/
def addLayer : List (String × String) → List String → List String →
    List String → List String × List String × List String
  | [], vis, ind, next => (vis, ind, next)
  | (t, _) :: rest, vis, ind, next =>
    if vis.contains t then addLayer rest vis ind next
    else addLayer rest (t :: vis) (ind ++ [t]) (next ++ [t])

/-- The layer loop of AnalysisService.findIndirectImpacts: nodes without an
adjacency entry are skipped; a node with more than 5 outgoing edges appends
the path to it to criticalPaths; the unvisited neighbors of each node extend
visited, indirectImpact and the next layer. -/
def processLayer (out : String → List (String × String))
    (isNode : String → Bool) (curPath : List String) :
    List String → List String → List String → List (List String) →
    List String →
    List String × List String × List (List String) × List String
  | [], vis, ind, crit, next => (vis, ind, crit, next)
  | n :: rest, vis, ind, crit, next =>
    if isNode n then
      let es := out n
      let crit2 := if 5 < es.length then crit ++ [curPath ++ [n]] else crit
      let r := addLayer es vis ind next
      processLayer out isNode curPath rest r.1 r.2.1 crit2 r.2.2
    else processLayer out isNode curPath rest vis ind crit next

/-- AnalysisService.findIndirectImpacts: layered breadth-first expansion.
Recursion is on `fuel`, the number of layers still allowed; the source starts
at currentDepth 1 and stops when currentDepth reaches maxDepth, so the call
in analyzeImpact passes fuel maxDepth - 1 and the two agree layer by layer.
Returns the final (visited, indirectImpact, criticalPaths). -/
def findIndirectImpacts (out : String → List (String × String))
    (isNode : String → Bool) :
    Nat → List String → List String → List String → List String →
    List (List String) →
    List String × List String × List (List String)
  | 0, _, _, vis, ind, crit => (vis, ind, crit)
  | fuel + 1, layer, curPath, vis, ind, crit =>
    let r := processLayer out isNode curPath layer vis ind crit []
    if r.2.2.2.isEmpty then (r.1, r.2.1, r.2.2.1)
    else findIndirectImpacts out isNode fuel r.2.2.2 (curPath ++ layer)
      r.1 r.2.1 r.2.2.1

/-- The source loop of AnalysisService.analyzeImpact: for each source with an
adjacency entry, collect unvisited direct neighbors, then expand indirect
impacts from the full direct-neighbor target list.  State is
(visited, directImpact, indirectImpact, criticalPaths). -/
def impactSources (out : String → List (String × String))
    (isNode : String → Bool) (maxDepth : Nat) :
    List String → List String → List String → List String →
    List (List String) →
    List String × List String × List String × List (List String)
  | [], vis, direct, ind, crit => (vis, direct, ind, crit)
  | s :: rest, vis, direct, ind, crit =>
    if isNode s then
      let dn := out s
      let a := addDirect dn vis direct
      let r := findIndirectImpacts out isNode (maxDepth - 1)
        (dn.map Prod.fst) [s] a.1 ind crit
      impactSources out isNode maxDepth rest r.1 a.2 r.2.1 r.2.2
    else impactSources out isNode maxDepth rest vis direct ind crit

/-- AnalysisService.analyzeImpact: mark the sources visited, process each
source in order, then assemble the metrics (observed critical-path hop
maximum, not the requested depth). -/
def analyzeImpact (ds : Dataset) (sourceIds : List String) (maxDepth : Nat) :
    ImpactAnalysisResult :=
  let r := impactSources (outgoing ds) (hasNode ds) maxDepth sourceIds
    sourceIds [] [] []
  let direct := r.2.1
  let ind := r.2.2.1
  let crit := r.2.2.2
  ⟨direct, ind,
    ⟨direct.length + ind.length,
     if crit.isEmpty then 0
     else maxOrZero (crit.map (fun p => p.length - 1)),
     crit.length⟩⟩

/-- Class definition from models/data-types (icon omitted, optional and
unused by the builder). -/
structure ClassDefinition where
  mk ::
  id : String
  name : String
  sourceColumn : String
  labelColumn : String
  metadataColumns : List String
  color : String
deriving Repr, DecidableEq

/-- Relationship definition from models/data-types. -/
structure RelationshipDefinition where
  mk ::
  id : String
  name : String
  sourceClass : String
  targetClass : String
  sourceColumn : String
  targetColumn : String
  metadataColumns : List String
deriving Repr, DecidableEq

/-- Mapping configuration from models/data-types. -/
structure MappingConfiguration where
  mk ::
  classes : List ClassDefinition
  relationships : List RelationshipDefinition
deriving Repr, DecidableEq

/-- One raw row: column name to stringified scalar value, none for an absent
property. -/
abbrev Row := List (String × String)

/-- Raw data from uploaded files. -/
structure RawData where
  mk ::
  columns : List String
  rows : List Row
deriving Repr, DecidableEq

/-- Property access row[c] on a raw row. -/
def cell (row : Row) (c : String) : Option String :=
  row.lookup c

/-- The id values GraphBuilderService.buildDataset skips: empty after
coercion, or the literal strings produced by String(undefined) and
String(null). -/
def isBadId (v : String) : Bool :=
  v == "" || v == "undefined" || v == "null"

/-- Metadata extraction shared by the two builder loops: copy every listed
column that is present in the row. -/
def entityMetadata (cols : List String) (row : Row) : List (String × String) :=
  cols.filterMap (fun c => (cell row c).map (fun v => (c, v)))

/-- The row loop of the entity phase of GraphBuilderService.buildDataset for
one class definition, threading (entities, entityMap). -/
def buildEntitiesForClass (cd : ClassDefinition) :
    List Row → List DataEntity → List String → List DataEntity × List String
  | [], es, seen => (es, seen)
  | row :: rest, es, seen =>
    match cell row cd.sourceColumn with
    | none => buildEntitiesForClass cd rest es seen
    | some v =>
      if isBadId v then buildEntitiesForClass cd rest es seen
      else
        let fullId := cd.id ++ ":" ++ v
        if seen.contains fullId then buildEntitiesForClass cd rest es seen
        else
          buildEntitiesForClass cd rest
            (es ++ [⟨fullId, cd.id, (cell row cd.labelColumn).getD v,
              entityMetadata cd.metadataColumns row⟩])
            (fullId :: seen)

/-- The class loop of the entity phase of GraphBuilderService.buildDataset;
the dedup set `seen` is shared across all classes. -/
def buildEntities (rows : List Row) :
    List ClassDefinition → List DataEntity → List String →
    List DataEntity × List String
  | [], es, seen => (es, seen)
  | cd :: cds, es, seen =>
    let r := buildEntitiesForClass cd rows es seen
    buildEntities rows cds r.1 r.2

/-- The row loop of the relationship phase of
GraphBuilderService.buildDataset for one relationship definition: skip rows
with missing or bad endpoint values, endpoints that were never built as
entities, self-loops, and already-created relationship ids. -/
def buildRelsForDef (seen : List String) (rd : RelationshipDefinition) :
    List Row → List Relationship → List Relationship
  | [], rels => rels
  | row :: rest, rels =>
    let sv := (cell row rd.sourceColumn).getD ""
    let tv := (cell row rd.targetColumn).getD ""
    if isBadId sv || isBadId tv then buildRelsForDef seen rd rest rels
    else
      let sFull := rd.sourceClass ++ ":" ++ sv
      let tFull := rd.targetClass ++ ":" ++ tv
      if !(seen.contains sFull) || !(seen.contains tFull) then
        buildRelsForDef seen rd rest rels
      else if sFull == tFull then buildRelsForDef seen rd rest rels
      else
        let relId := rd.id ++ ":" ++ sv ++ "-" ++ tv
        if rels.any (fun r => r.id == relId) then
          buildRelsForDef seen rd rest rels
        else
          buildRelsForDef seen rd rest
            (rels ++ [⟨relId, sFull, tFull, rd.id,
              entityMetadata rd.metadataColumns row⟩])

/-- The definition loop of the relationship phase of
GraphBuilderService.buildDataset. -/
def buildRels (seen : List String) (rows : List Row) :
    List RelationshipDefinition → List Relationship → List Relationship
  | [], rels => rels
  | rd :: rds, rels => buildRels seen rows rds (buildRelsForDef seen rd rows rels)

/-- GraphBuilderService.buildDataset: entity phase over all classes and rows,
then relationship phase over all definitions and rows.  The static type to
color cache only affects colors, never the returned dataset, and is not
modelled. -/
def buildDataset (raw : RawData) (mapping : MappingConfiguration) : Dataset :=
  let r := buildEntities raw.rows mapping.classes [] []
  ⟨r.1, buildRels r.2 raw.rows mapping.relationships []⟩

/-- GraphFilterService.filterDataset: with both filters, keep entities and
relationships appearing in some found path; with only sources, keep the
sources and their impact set and the relationships between kept ids; with no
filter (and in the unreachable fallthrough), return the dataset unchanged. -/
def filterDataset (ds : Dataset) (sourceIds targetIds : List String)
    (maxDepth : Nat) : Dataset :=
  if sourceIds.isEmpty && targetIds.isEmpty then ds
  else if !sourceIds.isEmpty && !targetIds.isEmpty then
    let pr := findPaths ds sourceIds targetIds maxDepth
    let nodeIdsInPaths := pr.paths.flatMap (fun p => p.nodes)
    let edgeIdsInPaths := pr.paths.flatMap (fun p => p.edges)
    ⟨ds.entities.filter (fun e => nodeIdsInPaths.contains e.id),
     ds.relationships.filter (fun r => edgeIdsInPaths.contains r.id)⟩
  else if !sourceIds.isEmpty then
    let ir := analyzeImpact ds sourceIds maxDepth
    let impacted := sourceIds ++ ir.directImpact ++ ir.indirectImpact
    ⟨ds.entities.filter (fun e => impacted.contains e.id),
     ds.relationships.filter
       (fun r => impacted.contains r.source && impacted.contains r.target)⟩
  else ds

/-!
### Invariant predicates used in the proofs
-/

/-- Invariant of the impact-analysis state: the sources are visited, the
visited set is exactly the union of the sources and the two impact lists,
the two impact lists hold pairwise distinct ids, and no source is in
either impact list. -/
def ImpInv (S vis direct ind : List String) : Prop :=
  (∀ x, x ∈ S → x ∈ vis) ∧
  (∀ x, x ∈ vis → x ∈ S ∨ x ∈ direct ∨ x ∈ ind) ∧
  (∀ x, x ∈ direct ∨ x ∈ ind → x ∈ vis) ∧
  (direct ++ ind).Nodup ∧
  (∀ x, x ∈ S → ¬ (x ∈ direct ∨ x ∈ ind))

/-- Invariant of the path search: every recorded edge id belongs to a
relationship of the dataset whose endpoints are nodes of the path. -/
def EdgesOk (ds : Dataset) (nodes edges : List String) : Prop :=
  ∀ eid ∈ edges, ∃ r ∈ ds.relationships,
    r.id = eid ∧ r.source ∈ nodes ∧ r.target ∈ nodes

/-- Well-formedness of one recorded path for a given maximum length. -/
def PathOk (maxLength : Nat) (p : PathRec) : Prop :=
  p.nodes.Nodup ∧ p.edges.length + 1 = p.nodes.length ∧
  p.nodes.length ≤ maxLength

/-- Invariant of the entity phase of the builder: the built entity ids are
duplicate free and the dedup set holds exactly the built ids. -/
def EntInv (es : List DataEntity) (seen : List String) : Prop :=
  (es.map (fun e => e.id)).Nodup ∧
  (∀ x, x ∈ es.map (fun e => e.id) ↔ x ∈ seen)

/-- Well-formedness of one built relationship relative to the dedup set of
the entity phase: endpoints were built as entities and differ. -/
def RelOk (seen : List String) (r : Relationship) : Prop :=
  r.source ∈ seen ∧ r.target ∈ seen ∧ r.source ≠ r.target

/-!
### Concrete datasets for the scenario theorems
-/

/-- Entity with the given id (type and label immaterial). -/
def mkEnt (i : String) : DataEntity := ⟨i, "node", i, []⟩

/-- Relationship with the given id, source and target. -/
def mkRel (i s t : String) : Relationship := ⟨i, s, t, "edge", []⟩

/-- Scenario A dataset: entities 1, 2, 3 and edges 1 to 2 and 2 to 3. -/
def linearDs : Dataset :=
  ⟨[mkEnt "1", mkEnt "2", mkEnt "3"],
   [mkRel "r12" "1" "2", mkRel "r23" "2" "3"]⟩

/-- Scenario C dataset: entities 1 to 7, node 1 with six outgoing edges. -/
def impactFanDs : Dataset :=
  ⟨[mkEnt "1", mkEnt "2", mkEnt "3", mkEnt "4", mkEnt "5", mkEnt "6",
    mkEnt "7"],
   [mkRel "r2" "1" "2", mkRel "r3" "1" "3", mkRel "r4" "1" "4",
    mkRel "r5" "1" "5", mkRel "r6" "1" "6", mkRel "r7" "1" "7"]⟩

/-- Two sources A and B, with A to X, X to Y and B to Y: the direct neighbor
Y of B is reached first by the indirect expansion of A. -/
def impactMergeDs : Dataset :=
  ⟨[mkEnt "A", mkEnt "X", mkEnt "Y", mkEnt "B"],
   [mkRel "ra" "A" "X", mkRel "rx" "X" "Y", mkRel "rb" "B" "Y"]⟩

/-- A dataset with a dangling relationship and no entities at all. -/
def danglingDs : Dataset := ⟨[], [mkRel "r" "a" "b"]⟩

/-- Scenario D raw data: two rows with the same id and different names. -/
def scenarioDRaw : RawData :=
  ⟨["id", "name"],
   [[("id", "e1"), ("name", "Alice")], [("id", "e1"), ("name", "Alice2")]]⟩

/-- Scenario D mapping: one class reading ids from `id` and labels from
`name`. -/
def scenarioDMapping : MappingConfiguration :=
  ⟨[⟨"class", "Class", "id", "name", [], "#4682B4"⟩], []⟩

/-- Raw data for the builder witness: two rows of one class and a reference
column linking them. -/
def builderWitnessRaw : RawData :=
  ⟨["s", "t"], [[("s", "a"), ("t", "b")], [("s", "b")]]⟩

/-- Mapping for the builder witness: one class and one relationship
definition from column `s` to column `t`. -/
def builderWitnessMapping : MappingConfiguration :=
  ⟨[⟨"c", "C", "s", "s", [], "#fff"⟩],
   [⟨"rd", "RD", "c", "c", "s", "t", []⟩]⟩

/-!
### Scenario theorems and counterexamples
-/

/-- Claim C5: on the dataset with entities 1, 2, 3 and relationships 1 to 2
and 2 to 3, findPaths from 1 to 3 with maxLength 10 returns exactly the path
with nodes [1, 2, 3] and edges [r12, r23], and metrics totalPaths 1,
shortestPathLength 3, longestPathLength 3 (lengths count nodes). -/
theorem findPaths_linear_scenario :
    findPaths linearDs ["1"] ["3"] 10 =
      ⟨[⟨["1", "2", "3"], ["r12", "r23"], 3, 2⟩], ⟨1, 3, 3⟩⟩ := by
  rfl

/-- Claim C2, counterexample: on the fan-out dataset of Scenario C the direct
and indirect impacts are as claimed, but the criticalPaths metric is 0, not
at least 1: the source node itself is never submitted to the fan-out test,
so its six outgoing edges flag nothing. -/
theorem impact_fanout_cex :
    ¬ ((analyzeImpact impactFanDs ["1"] 5).directImpact =
          ["2", "3", "4", "5", "6", "7"] ∧
       (analyzeImpact impactFanDs ["1"] 5).indirectImpact = [] ∧
       1 ≤ (analyzeImpact impactFanDs ["1"] 5).metrics.criticalPaths) := by
  decide

/-- Claim C2, amended: analyzeImpact on the Scenario C dataset returns
directImpact [2, 3, 4, 5, 6, 7], indirectImpact [], six impacted nodes in
total and zero critical paths, because the fan-out check only applies to
nodes inside the breadth-first layers, never to a source node. -/
theorem impact_fanout_result :
    analyzeImpact impactFanDs ["1"] 5 =
      ⟨["2", "3", "4", "5", "6", "7"], [], ⟨6, 0, 0⟩⟩ := by
  rfl

/-- Claim C1, counterexample: with sources A and B, edges A to X, X to Y and
B to Y, the entity Y is an outgoing neighbor of the source B and is not a
source, yet it lands in indirectImpact, not directImpact: the indirect
expansion of A runs before the direct neighborhood of B is examined, so the
direct neighborhoods are not merged first. -/
theorem impact_merge_cex :
    "Y" ∈ (outgoing impactMergeDs "B").map Prod.fst ∧
    "Y" ∉ (["A", "B"] : List String) ∧
    "Y" ∉ (analyzeImpact impactMergeDs ["A", "B"] 5).directImpact ∧
    "Y" ∈ (analyzeImpact impactMergeDs ["A", "B"] 5).indirectImpact := by
  decide

/-- Claim C6, counterexample: with both filters empty, filterDataset returns
the input dataset unchanged, so a dataset carrying a dangling relationship
is returned with that relationship even though neither endpoint is among the
returned entity ids. -/
theorem filter_soundness_cex :
    ¬ (∀ r ∈ (filterDataset danglingDs [] [] 5).relationships,
        r.source ∈ entityIds (filterDataset danglingDs [] [] 5) ∧
        r.target ∈ entityIds (filterDataset danglingDs [] [] 5)) := by
  decide

/-- Claim C10: with an empty sourceIds list and a non-empty targetIds list,
no branch of filterDataset applies and the input dataset is returned
unchanged. -/
theorem filter_empty_sources (ds : Dataset) (tgts : List String) (d : Nat)
    (h : tgts ≠ []) : filterDataset ds [] tgts d = ds := by
  cases tgts with
  | nil => exact absurd rfl h
  | cons t ts => simp [filterDataset]

/-- Witness for filter_empty_sources at a concrete input. -/
theorem filter_empty_sources_wit :
    filterDataset linearDs [] ["3"] 5 = linearDs :=
  filter_empty_sources linearDs ["3"] 5 (by decide)

/-- Claim C9: an empty sourceIds list makes analyzeImpact return empty
impact lists with all-zero metrics, and a source/target specification with
no usable pair (every pair identical, or an endpoint absent from the graph,
which covers empty lists vacuously) makes findPaths return no paths with
all-zero metrics; both functions are total, so neither call throws. -/
theorem noop_zero_result (ds : Dataset) (srcs tgts : List String)
    (md L : Nat) :
    analyzeImpact ds [] md = ⟨[], [], ⟨0, 0, 0⟩⟩ ∧
    ((∀ s ∈ srcs, ∀ t ∈ tgts,
        s = t ∨ hasNode ds s = false ∨ hasNode ds t = false) →
      findPaths ds srcs tgts L = ⟨[], ⟨0, 0, 0⟩⟩) := by
  constructor
  · rfl
  · intro h
    have hp : (srcs.flatMap (fun s =>
        tgts.flatMap (fun t => pairPaths ds L s t))) = [] := by
      rw [List.flatMap_eq_nil_iff]
      intro s hs
      rw [List.flatMap_eq_nil_iff]
      intro t ht
      rcases h s hs t ht with h1 | h1 | h1
      · simp [pairPaths, h1]
      · simp [pairPaths, h1]
      · simp [pairPaths, h1]
    simp only [findPaths, hp]
    rfl

/-- Witness for noop_zero_result: the path branch at a concrete identical
source/target pair. -/
theorem noop_zero_result_wit :
    findPaths linearDs ["1"] ["1"] 10 = ⟨[], ⟨0, 0, 0⟩⟩ :=
  (noop_zero_result linearDs ["1"] ["1"] 5 10).2 (by decide)

/-!
### Path well-formedness
-/

/-- Soundness of the backtracking search: if the current path is duplicate
free, edges lag nodes by one, the visited set holds exactly the path nodes,
and the path is within bounds whenever it could be recorded, then every
recorded path is well formed. -/
theorem findAllPaths_ok (out : String → List (String × String))
    (target : String) (maxLength : Nat) :
    ∀ fuel current path edges visited,
    path.Nodup → edges.length + 1 = path.length →
    (∀ x, x ∈ visited ↔ x ∈ path) →
    (current = target → path.length ≤ maxLength) →
    ∀ p ∈ findAllPaths out target maxLength fuel current path edges visited,
      PathOk maxLength p := by
  intro fuel
  induction fuel with
  | zero =>
    intro current path edges visited hnd hlen hvis htar p hp
    simp only [findAllPaths] at hp
    split at hp
    · rename_i hct
      simp only [List.mem_singleton] at hp
      subst hp
      exact ⟨hnd, hlen, htar hct⟩
    · simp at hp
  | succ f ih =>
    intro current path edges visited hnd hlen hvis htar p hp
    simp only [findAllPaths] at hp
    split at hp
    · rename_i hct
      simp only [List.mem_singleton] at hp
      subst hp
      exact ⟨hnd, hlen, htar hct⟩
    · rename_i hct
      split at hp
      · simp at hp
      · rename_i hle
        have hlt : path.length < maxLength := Nat.lt_of_not_le hle
        clear hct hle
        revert hp
        generalize (out current) = es
        induction es with
        | nil =>
          intro hp
          simp [dfsEdges] at hp
        | cons e rest ihes =>
          obtain ⟨t, eid⟩ := e
          intro hp
          simp only [dfsEdges, List.mem_append] at hp
          rcases hp with hp | hp
          · split at hp
            · simp at hp
            · rename_i hcont
              have hnv : t ∉ path := by
                intro hm
                exact hcont (List.elem_iff.mpr ((hvis t).mpr hm))
              refine ih t (path ++ [t]) (edges ++ [eid]) (t :: visited) ?_ ?_ ?_ ?_ p hp
              · exact List.nodup_append.mpr ⟨hnd, List.nodup_singleton t,
                  fun a ha hb => by
                    rw [List.mem_singleton] at hb
                    subst hb
                    exact hnv ha⟩
              · simp [hlen]
              · intro x
                simp only [List.mem_cons, List.mem_append, List.mem_singleton,
                  List.not_mem_nil, or_false, hvis x]
                exact or_comm
              · intro _
                simpa using Nat.succ_le_of_lt hlt
          · exact ihes hp

/-- Claim C4: every path returned by findPaths has pairwise distinct node
ids, an edge list exactly one element shorter than its node list, and at
most maxLength nodes. -/
theorem findPaths_wellformed (ds : Dataset) (srcs tgts : List String)
    (L : Nat) :
    ∀ p ∈ (findPaths ds srcs tgts L).paths,
      p.nodes.Nodup ∧ p.edges.length + 1 = p.nodes.length ∧
      p.nodes.length ≤ L := by
  intro p hp
  have hps : (findPaths ds srcs tgts L).paths =
      srcs.flatMap (fun s => tgts.flatMap (fun t => pairPaths ds L s t)) := rfl
  rw [hps, List.mem_flatMap] at hp
  obtain ⟨s, hs, hp⟩ := hp
  rw [List.mem_flatMap] at hp
  obtain ⟨t, ht, hp⟩ := hp
  simp only [pairPaths] at hp
  split at hp
  · simp at hp
  · rename_i hst
    split at hp
    · simp at hp
    · split at hp
      · simp at hp
      · exact findAllPaths_ok (outgoing ds) t L L s [s] [] [s]
          (List.nodup_singleton s) rfl (fun x => Iff.rfl)
          (fun heq => absurd heq hst) p hp

/-- Witness for findPaths_wellformed on the Scenario A dataset and its one
returned path. -/
theorem findPaths_wellformed_wit :
    (⟨["1", "2", "3"], ["r12", "r23"], 3, 2⟩ : PathRec).nodes.Nodup ∧
    (⟨["1", "2", "3"], ["r12", "r23"], 3, 2⟩ : PathRec).edges.length + 1 =
      (⟨["1", "2", "3"], ["r12", "r23"], 3, 2⟩ : PathRec).nodes.length ∧
    (⟨["1", "2", "3"], ["r12", "r23"], 3, 2⟩ : PathRec).nodes.length ≤ 10 :=
  findPaths_wellformed linearDs ["1"] ["3"] 10
    ⟨["1", "2", "3"], ["r12", "r23"], 3, 2⟩ (by decide)

/-!
### Impact analysis invariants
-/

/-- Pushing an unvisited id onto directImpact preserves the impact
invariant. -/
theorem impInv_push_direct {S vis d i : List String} {t : String}
    (h : ImpInv S vis d i) (ht : t ∉ vis) :
    ImpInv S (t :: vis) (d ++ [t]) i := by
  obtain ⟨h1, h2, h3, h4, h5⟩ := h
  refine ⟨?_, ?_, ?_, ?_, ?_⟩
  · intro x hx
    exact List.mem_cons_of_mem t (h1 x hx)
  · intro x hx
    rcases List.mem_cons.mp hx with rfl | hx
    · exact Or.inr (Or.inl (List.mem_append.mpr
        (Or.inr (List.mem_singleton_self x))))
    · rcases h2 x hx with hx | hx | hx
      · exact Or.inl hx
      · exact Or.inr (Or.inl (List.mem_append.mpr (Or.inl hx)))
      · exact Or.inr (Or.inr hx)
  · intro x hx
    rcases hx with hx | hx
    · rcases List.mem_append.mp hx with hx | hx
      · exact List.mem_cons_of_mem t (h3 x (Or.inl hx))
      · rw [List.mem_singleton] at hx
        subst hx
        exact List.mem_cons_self x vis
    · exact List.mem_cons_of_mem t (h3 x (Or.inr hx))
  · have htd : t ∉ d ++ i := fun hm => ht (h3 t (List.mem_append.mp hm))
    rw [List.append_assoc, List.singleton_append, List.nodup_middle]
    exact List.nodup_cons.mpr ⟨htd, h4⟩
  · intro x hx hmem
    rcases hmem with hm | hm
    · rcases List.mem_append.mp hm with hm | hm
      · exact h5 x hx (Or.inl hm)
      · rw [List.mem_singleton] at hm
        subst hm
        exact ht (h1 x hx)
    · exact h5 x hx (Or.inr hm)

/-- Pushing an unvisited id onto indirectImpact preserves the impact
invariant. -/
theorem impInv_push_ind {S vis d i : List String} {t : String}
    (h : ImpInv S vis d i) (ht : t ∉ vis) :
    ImpInv S (t :: vis) d (i ++ [t]) := by
  obtain ⟨h1, h2, h3, h4, h5⟩ := h
  refine ⟨?_, ?_, ?_, ?_, ?_⟩
  · intro x hx
    exact List.mem_cons_of_mem t (h1 x hx)
  · intro x hx
    rcases List.mem_cons.mp hx with rfl | hx
    · exact Or.inr (Or.inr (List.mem_append.mpr
        (Or.inr (List.mem_singleton_self x))))
    · rcases h2 x hx with hx | hx | hx
      · exact Or.inl hx
      · exact Or.inr (Or.inl hx)
      · exact Or.inr (Or.inr (List.mem_append.mpr (Or.inl hx)))
  · intro x hx
    rcases hx with hx | hx
    · exact List.mem_cons_of_mem t (h3 x (Or.inl hx))
    · rcases List.mem_append.mp hx with hx | hx
      · exact List.mem_cons_of_mem t (h3 x (Or.inr hx))
      · rw [List.mem_singleton] at hx
        subst hx
        exact List.mem_cons_self x vis
  · have htd : t ∉ d ++ i := fun hm => ht (h3 t (List.mem_append.mp hm))
    rw [← List.append_assoc]
    refine List.nodup_append.mpr ⟨h4, List.nodup_singleton t, ?_⟩
    intro a ha hb
    rw [List.mem_singleton] at hb
    subst hb
    exact htd ha
  · intro x hx hmem
    rcases hmem with hm | hm
    · exact h5 x hx (Or.inl hm)
    · rcases List.mem_append.mp hm with hm | hm
      · exact h5 x hx (Or.inr hm)
      · rw [List.mem_singleton] at hm
        subst hm
        exact ht (h1 x hx)

/-- The direct-neighbor loop only grows the visited set. -/
theorem addDirect_mono :
    ∀ es vis d, ∀ x ∈ vis, x ∈ (addDirect es vis d).1 := by
  intro es
  induction es with
  | nil => intro vis d x hx; exact hx
  | cons e rest ihes =>
    obtain ⟨t, eid⟩ := e
    intro vis d x hx
    simp only [addDirect]
    split
    · exact ihes vis d x hx
    · exact ihes (t :: vis) (d ++ [t]) x (List.mem_cons_of_mem t hx)

/-- After the direct-neighbor loop every neighbor target is visited. -/
theorem addDirect_covers :
    ∀ es vis d, ∀ x ∈ es.map Prod.fst, x ∈ (addDirect es vis d).1 := by
  intro es
  induction es with
  | nil => intro vis d x hx; simp at hx
  | cons e rest ihes =>
    obtain ⟨t, eid⟩ := e
    intro vis d x hx
    simp only [List.map_cons, List.mem_cons] at hx
    simp only [addDirect]
    split
    · rename_i hc
      rcases hx with rfl | hx
      · exact addDirect_mono rest vis d x (List.elem_iff.mp hc)
      · exact ihes vis d x hx
    · rcases hx with rfl | hx
      · exact addDirect_mono rest (x :: vis) (d ++ [x]) x
          (List.mem_cons_self x vis)
      · exact ihes (t :: vis) (d ++ [t]) x hx

/-- The direct-neighbor loop preserves the impact invariant. -/
theorem addDirect_inv {S : List String} :
    ∀ es vis d i, ImpInv S vis d i →
    ImpInv S (addDirect es vis d).1 (addDirect es vis d).2 i := by
  intro es
  induction es with
  | nil => intro vis d i h; exact h
  | cons e rest ihes =>
    obtain ⟨t, eid⟩ := e
    intro vis d i h
    simp only [addDirect]
    split
    · exact ihes vis d i h
    · rename_i hc
      have hnv : t ∉ vis := fun hm => hc (List.elem_iff.mpr hm)
      exact ihes (t :: vis) (d ++ [t]) i (impInv_push_direct h hnv)

/-- The layer-neighbor loop only grows the visited set. -/
theorem addLayer_mono :
    ∀ es vis ind next, ∀ x ∈ vis, x ∈ (addLayer es vis ind next).1 := by
  intro es
  induction es with
  | nil => intro vis ind next x hx; exact hx
  | cons e rest ihes =>
    obtain ⟨t, eid⟩ := e
    intro vis ind next x hx
    simp only [addLayer]
    split
    · exact ihes vis ind next x hx
    · exact ihes (t :: vis) (ind ++ [t]) (next ++ [t]) x
        (List.mem_cons_of_mem t hx)

/-- The layer-neighbor loop preserves the impact invariant. -/
theorem addLayer_inv {S d : List String} :
    ∀ es vis ind next, ImpInv S vis d ind →
    ImpInv S (addLayer es vis ind next).1 d (addLayer es vis ind next).2.1 := by
  intro es
  induction es with
  | nil => intro vis ind next h; exact h
  | cons e rest ihes =>
    obtain ⟨t, eid⟩ := e
    intro vis ind next h
    simp only [addLayer]
    split
    · exact ihes vis ind next h
    · rename_i hc
      have hnv : t ∉ vis := fun hm => hc (List.elem_iff.mpr hm)
      exact ihes (t :: vis) (ind ++ [t]) (next ++ [t])
        (impInv_push_ind h hnv)

/-- The layer loop only grows the visited set. -/
theorem processLayer_mono (out : String → List (String × String))
    (isNode : String → Bool) (curPath : List String) :
    ∀ layer vis ind crit next, ∀ x ∈ vis,
      x ∈ (processLayer out isNode curPath layer vis ind crit next).1 := by
  intro layer
  induction layer with
  | nil => intro vis ind crit next x hx; exact hx
  | cons n rest ihl =>
    intro vis ind crit next x hx
    simp only [processLayer]
    split
    · exact ihl _ _ _ _ x (addLayer_mono (out n) vis ind next x hx)
    · exact ihl vis ind crit next x hx

/-- The layer loop preserves the impact invariant. -/
theorem processLayer_inv {S d : List String}
    (out : String → List (String × String)) (isNode : String → Bool)
    (curPath : List String) :
    ∀ layer vis ind crit next, ImpInv S vis d ind →
      ImpInv S (processLayer out isNode curPath layer vis ind crit next).1 d
        (processLayer out isNode curPath layer vis ind crit next).2.1 := by
  intro layer
  induction layer with
  | nil => intro vis ind crit next h; exact h
  | cons n rest ihl =>
    intro vis ind crit next h
    simp only [processLayer]
    split
    · exact ihl _ _ _ _ (addLayer_inv (out n) vis ind next h)
    · exact ihl vis ind crit next h

/-- The indirect expansion only grows the visited set. -/
theorem findIndirectImpacts_mono (out : String → List (String × String))
    (isNode : String → Bool) :
    ∀ fuel layer curPath vis ind crit, ∀ x ∈ vis,
      x ∈ (findIndirectImpacts out isNode fuel layer curPath vis ind crit).1 := by
  intro fuel
  induction fuel with
  | zero => intro layer curPath vis ind crit x hx; exact hx
  | succ f ihf =>
    intro layer curPath vis ind crit x hx
    simp only [findIndirectImpacts]
    split
    · exact processLayer_mono out isNode curPath layer vis ind crit [] x hx
    · exact ihf _ _ _ _ _ x
        (processLayer_mono out isNode curPath layer vis ind crit [] x hx)

/-- The indirect expansion preserves the impact invariant. -/
theorem findIndirectImpacts_inv {S d : List String}
    (out : String → List (String × String)) (isNode : String → Bool) :
    ∀ fuel layer curPath vis ind crit, ImpInv S vis d ind →
      ImpInv S (findIndirectImpacts out isNode fuel layer curPath vis ind crit).1 d
        (findIndirectImpacts out isNode fuel layer curPath vis ind crit).2.1 := by
  intro fuel
  induction fuel with
  | zero => intro layer curPath vis ind crit h; exact h
  | succ f ihf =>
    intro layer curPath vis ind crit h
    simp only [findIndirectImpacts]
    split
    · exact processLayer_inv out isNode curPath layer vis ind crit [] h
    · exact ihf _ _ _ _ _
        (processLayer_inv out isNode curPath layer vis ind crit [] h)

/-- The source loop only grows the visited set. -/
theorem impactSources_mono (out : String → List (String × String))
    (isNode : String → Bool) (md : Nat) :
    ∀ srcs vis direct ind crit, ∀ x ∈ vis,
      x ∈ (impactSources out isNode md srcs vis direct ind crit).1 := by
  intro srcs
  induction srcs with
  | nil => intro vis direct ind crit x hx; exact hx
  | cons s0 rest ihs =>
    intro vis direct ind crit x hx
    simp only [impactSources]
    split
    · exact ihs _ _ _ _ x
        (findIndirectImpacts_mono out isNode _ _ _ _ _ _ x
          (addDirect_mono (out s0) vis direct x hx))
    · exact ihs vis direct ind crit x hx

/-- The source loop preserves the impact invariant. -/
theorem impactSources_inv {S : List String}
    (out : String → List (String × String)) (isNode : String → Bool)
    (md : Nat) :
    ∀ srcs vis direct ind crit, ImpInv S vis direct ind →
      ImpInv S (impactSources out isNode md srcs vis direct ind crit).1
        (impactSources out isNode md srcs vis direct ind crit).2.1
        (impactSources out isNode md srcs vis direct ind crit).2.2.1 := by
  intro srcs
  induction srcs with
  | nil => intro vis direct ind crit h; exact h
  | cons s0 rest ihs =>
    intro vis direct ind crit h
    simp only [impactSources]
    split
    · exact ihs _ _ _ _
        (findIndirectImpacts_inv out isNode _ _ _ _ _ _
          (addDirect_inv (out s0) vis direct ind h))
    · exact ihs vis direct ind crit h

/-- Every outgoing neighbor of a processed source with an adjacency entry is
visited after the source loop. -/
theorem impactSources_covers (out : String → List (String × String))
    (isNode : String → Bool) (md : Nat) :
    ∀ srcs vis direct ind crit s, s ∈ srcs → isNode s = true →
    ∀ t ∈ (out s).map Prod.fst,
      t ∈ (impactSources out isNode md srcs vis direct ind crit).1 := by
  intro srcs
  induction srcs with
  | nil => intro vis direct ind crit s hs; simp at hs
  | cons s0 rest ihs =>
    intro vis direct ind crit s hs hnode t ht
    rcases List.mem_cons.mp hs with rfl | hs
    · simp only [impactSources]
      split
      · exact impactSources_mono out isNode md rest _ _ _ _ t
          (findIndirectImpacts_mono out isNode _ _ _ _ _ _ t
            (addDirect_covers (out s) vis direct t ht))
      · rename_i hc
        exact absurd hnode hc
    · simp only [impactSources]
      split
      · exact ihs _ _ _ _ s hs hnode t ht
      · exact ihs vis direct ind crit s hs hnode t ht

/-- The impact invariant holds at the start of analyzeImpact, when the
visited set is exactly the source list. -/
theorem impInv_init (S : List String) : ImpInv S S [] [] := by
  refine ⟨fun x hx => hx, fun x hx => Or.inl hx, ?_, List.nodup_nil, ?_⟩
  · intro x hx
    rcases hx with hx | hx <;> simp at hx
  · intro x hx hm
    rcases hm with hm | hm <;> simp at hm

/-- Claim C3: for every dataset, source list and depth, directImpact and
indirectImpact are disjoint, each is duplicate free, and neither contains a
source id. -/
theorem impact_disjointness (ds : Dataset) (srcs : List String) (md : Nat) :
    ((analyzeImpact ds srcs md).directImpact ++
        (analyzeImpact ds srcs md).indirectImpact).Nodup ∧
    (∀ x ∈ srcs,
      x ∉ (analyzeImpact ds srcs md).directImpact ∧
      x ∉ (analyzeImpact ds srcs md).indirectImpact) := by
  have h := impactSources_inv (outgoing ds) (hasNode ds) md srcs srcs []
    [] [] (impInv_init srcs)
  have hd : (analyzeImpact ds srcs md).directImpact =
      (impactSources (outgoing ds) (hasNode ds) md srcs srcs [] [] []).2.1 := rfl
  have hi : (analyzeImpact ds srcs md).indirectImpact =
      (impactSources (outgoing ds) (hasNode ds) md srcs srcs [] [] []).2.2.1 := rfl
  rw [hd, hi]
  refine ⟨h.2.2.2.1, ?_⟩
  intro x hx
  have h5 := h.2.2.2.2 x hx
  exact ⟨fun hm => h5 (Or.inl hm), fun hm => h5 (Or.inr hm)⟩

/-- Witness for impact_disjointness at a concrete source. -/
theorem impact_disjointness_wit :
    "1" ∈ (["1"] : List String) ∧
    "1" ∉ (analyzeImpact linearDs ["1"] 5).directImpact ∧
    "1" ∉ (analyzeImpact linearDs ["1"] 5).indirectImpact :=
  ⟨by decide, (impact_disjointness linearDs ["1"] 5).2 "1" (by decide)⟩

/-- Claim C1, amended: sources are processed sequentially, each running its
indirect expansion before the next source is examined, so a direct neighbor
of a later source can be claimed by an earlier indirect layer; what holds is
that every outgoing neighbor of any source that is not itself a source ends
up in directImpact or in indirectImpact. -/
theorem impact_neighbor_covered (ds : Dataset) (srcs : List String)
    (md : Nat) (s t : String) (hs : s ∈ srcs)
    (ht : t ∈ (outgoing ds s).map Prod.fst) (hns : t ∉ srcs) :
    t ∈ (analyzeImpact ds srcs md).directImpact ∨
    t ∈ (analyzeImpact ds srcs md).indirectImpact := by
  by_cases hn : hasNode ds s = true
  · have hcov := impactSources_covers (outgoing ds) (hasNode ds) md srcs
      srcs [] [] [] s hs hn t ht
    have h := impactSources_inv (outgoing ds) (hasNode ds) md srcs srcs []
      [] [] (impInv_init srcs)
    have h2 := h.2.1 t hcov
    have hd : (analyzeImpact ds srcs md).directImpact =
        (impactSources (outgoing ds) (hasNode ds) md srcs srcs [] [] []).2.1 := rfl
    have hi : (analyzeImpact ds srcs md).indirectImpact =
        (impactSources (outgoing ds) (hasNode ds) md srcs srcs [] [] []).2.2.1 := rfl
    rw [hd, hi]
    rcases h2 with h2 | h2 | h2
    · exact absurd h2 hns
    · exact Or.inl h2
    · exact Or.inr h2
  · have hn2 : hasNode ds s = false := by
      revert hn
      cases hasNode ds s <;> simp
    rw [outgoing, hn2] at ht
    simp at ht

/-- Witness for impact_neighbor_covered: the direct neighbor Y of source B
lands in one of the two impact lists. -/
theorem impact_neighbor_covered_wit :
    "Y" ∈ (analyzeImpact impactMergeDs ["A", "B"] 5).directImpact ∨
    "Y" ∈ (analyzeImpact impactMergeDs ["A", "B"] 5).indirectImpact :=
  impact_neighbor_covered impactMergeDs ["A", "B"] 5 "B" "Y" (by decide)
    (by decide) (by decide)

/-!
### Builder invariants
-/

/-- The per-class entity loop preserves the entity-phase invariant. -/
theorem buildEntitiesForClass_inv (cd : ClassDefinition) :
    ∀ rows es seen, EntInv es seen →
      EntInv (buildEntitiesForClass cd rows es seen).1
        (buildEntitiesForClass cd rows es seen).2 := by
  intro rows
  induction rows with
  | nil => intro es seen h; exact h
  | cons row rest ihr =>
    intro es seen h
    simp only [buildEntitiesForClass]
    split
    · exact ihr es seen h
    · rename_i v hcell
      split
      · exact ihr es seen h
      · split
        · exact ihr es seen h
        · rename_i hbad hcont
          apply ihr
          have hnew : (cd.id ++ ":" ++ v) ∉ seen :=
            fun hm => hcont (List.elem_iff.mpr hm)
          obtain ⟨h1, h2⟩ := h
          constructor
          · rw [List.map_append]
            refine List.nodup_append.mpr ⟨h1, List.nodup_singleton _, ?_⟩
            intro a ha hb
            simp only [List.map_cons, List.map_nil, List.mem_singleton] at hb
            subst hb
            exact hnew ((h2 _).mp ha)
          · intro x
            rw [List.map_append]
            simp only [List.mem_append, List.map_cons, List.map_nil,
              List.mem_singleton, List.mem_cons, List.not_mem_nil, or_false,
              h2 x]
            exact or_comm

/-- The class loop preserves the entity-phase invariant. -/
theorem buildEntities_inv (rows : List Row) :
    ∀ cds es seen, EntInv es seen →
      EntInv (buildEntities rows cds es seen).1
        (buildEntities rows cds es seen).2 := by
  intro cds
  induction cds with
  | nil => intro es seen h; exact h
  | cons cd rest ihc =>
    intro es seen h
    simp only [buildEntities]
    exact ihc _ _ (buildEntitiesForClass_inv cd rows es seen h)

/-- Every relationship surviving the per-definition row loop has endpoints
in the dedup set and is not a self-loop. -/
theorem buildRelsForDef_ok (seen : List String) (rd : RelationshipDefinition) :
    ∀ rows rels,
    (∀ r ∈ rels, RelOk seen r) →
    ∀ r ∈ buildRelsForDef seen rd rows rels, RelOk seen r := by
  intro rows
  induction rows with
  | nil => intro rels h; exact h
  | cons row rest ihr =>
    intro rels h
    simp only [buildRelsForDef]
    split
    · exact ihr rels h
    · split
      · exact ihr rels h
      · split
        · exact ihr rels h
        · split
          · exact ihr rels h
          · rename_i hbad hexist hself hdup
            apply ihr
            intro r hr
            rcases List.mem_append.mp hr with hr | hr
            · exact h r hr
            · rw [List.mem_singleton] at hr
              subst hr
              have hex : seen.contains (rd.sourceClass ++ ":" ++
                  (cell row rd.sourceColumn).getD "") = true ∧
                  seen.contains (rd.targetClass ++ ":" ++
                  (cell row rd.targetColumn).getD "") = true := by
                revert hexist
                cases seen.contains (rd.sourceClass ++ ":" ++
                  (cell row rd.sourceColumn).getD "") <;>
                cases seen.contains (rd.targetClass ++ ":" ++
                  (cell row rd.targetColumn).getD "") <;> simp
              refine ⟨List.elem_iff.mp hex.1, List.elem_iff.mp hex.2, ?_⟩
              intro heq
              exact hself (beq_iff_eq.mpr heq)

/-- The per-definition row loop keeps relationship ids duplicate free. -/
theorem buildRelsForDef_nodup (seen : List String)
    (rd : RelationshipDefinition) :
    ∀ rows rels, ((rels.map (fun r => r.id)).Nodup) →
      ((buildRelsForDef seen rd rows rels).map (fun r => r.id)).Nodup := by
  intro rows
  induction rows with
  | nil => intro rels h; exact h
  | cons row rest ihr =>
    intro rels h
    simp only [buildRelsForDef]
    split
    · exact ihr rels h
    · split
      · exact ihr rels h
      · split
        · exact ihr rels h
        · split
          · exact ihr rels h
          · rename_i hbad hexist hself hdup
            apply ihr
            rw [List.map_append]
            refine List.nodup_append.mpr ⟨h, List.nodup_singleton _, ?_⟩
            intro a ha hb
            simp only [List.map_cons, List.map_nil, List.mem_singleton] at hb
            subst hb
            rw [List.mem_map] at ha
            obtain ⟨r0, hr0, hid⟩ := ha
            exact hdup (List.any_eq_true.mpr ⟨r0, hr0, beq_iff_eq.mpr hid⟩)

/-- The definition loop preserves relationship well-formedness. -/
theorem buildRels_ok (seen : List String) (rows : List Row) :
    ∀ rds rels, (∀ r ∈ rels, RelOk seen r) →
      ∀ r ∈ buildRels seen rows rds rels, RelOk seen r := by
  intro rds
  induction rds with
  | nil => intro rels h; exact h
  | cons rd rest ihd =>
    intro rels h
    simp only [buildRels]
    exact ihd _ (buildRelsForDef_ok seen rd rows rels h)

/-- The definition loop keeps relationship ids duplicate free. -/
theorem buildRels_nodup (seen : List String) (rows : List Row) :
    ∀ rds rels, ((rels.map (fun r => r.id)).Nodup) →
      ((buildRels seen rows rds rels).map (fun r => r.id)).Nodup := by
  intro rds
  induction rds with
  | nil => intro rels h; exact h
  | cons rd rest ihd =>
    intro rels h
    simp only [buildRels]
    exact ihd _ (buildRelsForDef_nodup seen rd rows rels h)

/-- Claim C7: buildDataset is deterministic (it is a pure function of its
arguments), every entity id and every relationship id occurs exactly once in
the respective collection of any built dataset (so duplicated input rows add
no duplicates), and on the Scenario D rows the first occurrence wins: one
entity with id class:e1 and label Alice. -/
theorem build_dedup (raw : RawData) (mapping : MappingConfiguration) :
    buildDataset raw mapping = buildDataset raw mapping ∧
    ((buildDataset raw mapping).entities.map (fun e => e.id)).Nodup ∧
    ((buildDataset raw mapping).relationships.map (fun r => r.id)).Nodup ∧
    buildDataset scenarioDRaw scenarioDMapping =
      ⟨[⟨"class:e1", "class", "Alice", []⟩], []⟩ := by
  have h0 : EntInv [] [] := ⟨List.nodup_nil, by simp⟩
  refine ⟨rfl, ?_, ?_, by rfl⟩
  · exact (buildEntities_inv raw.rows mapping.classes [] [] h0).1
  · exact buildRels_nodup (buildEntities raw.rows mapping.classes [] []).2
      raw.rows mapping.relationships [] List.nodup_nil

/-- Claim C8: every relationship of a built dataset has both endpoints among
the built entity ids and is never a self-loop. -/
theorem build_integrity (raw : RawData) (mapping : MappingConfiguration) :
    ∀ r ∈ (buildDataset raw mapping).relationships,
      r.source ∈ entityIds (buildDataset raw mapping) ∧
      r.target ∈ entityIds (buildDataset raw mapping) ∧
      r.source ≠ r.target := by
  intro r hr
  have h0 : EntInv [] [] := ⟨List.nodup_nil, by simp⟩
  have hseen := buildEntities_inv raw.rows mapping.classes [] [] h0
  have h := buildRels_ok (buildEntities raw.rows mapping.classes [] []).2
    raw.rows mapping.relationships [] (by simp) r hr
  exact ⟨(hseen.2 _).mpr h.1, (hseen.2 _).mpr h.2.1, h.2.2⟩

/-- Witness for build_integrity at a concrete build with one
relationship. -/
theorem build_integrity_wit :
    (⟨"rd:a-b", "c:a", "c:b", "rd", []⟩ : Relationship).source ∈
      entityIds (buildDataset builderWitnessRaw builderWitnessMapping) ∧
    (⟨"rd:a-b", "c:a", "c:b", "rd", []⟩ : Relationship).target ∈
      entityIds (buildDataset builderWitnessRaw builderWitnessMapping) ∧
    (⟨"rd:a-b", "c:a", "c:b", "rd", []⟩ : Relationship).source ≠
      (⟨"rd:a-b", "c:a", "c:b", "rd", []⟩ : Relationship).target :=
  build_integrity builderWitnessRaw builderWitnessMapping
    ⟨"rd:a-b", "c:a", "c:b", "rd", []⟩ (by decide)

/-!
### Filter soundness
-/

/-- Growing the node list preserves the edge invariant. -/
theorem edgesOk_mono {ds : Dataset} {nodes edges : List String}
    (h : EdgesOk ds nodes edges) (t : String) :
    EdgesOk ds (nodes ++ [t]) edges := by
  intro eid he
  obtain ⟨r, hr, hid, hs, ht2⟩ := h eid he
  exact ⟨r, hr, hid, List.mem_append.mpr (Or.inl hs),
    List.mem_append.mpr (Or.inl ht2)⟩

/-- Every adjacency edge comes from a relationship of the dataset with the
matching source, target and id. -/
theorem mem_outgoing {ds : Dataset} {x t eid : String}
    (h : (t, eid) ∈ outgoing ds x) :
    ∃ r ∈ ds.relationships, r.id = eid ∧ r.source = x ∧ r.target = t := by
  rw [outgoing] at h
  split at h
  · rw [List.mem_map] at h
    obtain ⟨r, hr, heq⟩ := h
    rw [List.mem_filter] at hr
    have hsrc : r.source = x := by
      have := hr.2
      simp only [Bool.and_eq_true] at this
      exact eq_of_beq this.2
    have ht2 : r.target = t := congrArg Prod.fst heq
    have hid : r.id = eid := congrArg Prod.snd heq
    exact ⟨r, hr.1, hid, hsrc, ht2⟩
  · simp at h

/-- Every path recorded by the search keeps the edge invariant: each of its
edge ids names a relationship whose endpoints are nodes of the path. -/
theorem findAllPaths_edges (ds : Dataset) (target : String) (maxLength : Nat) :
    ∀ fuel current path edges visited,
    current ∈ path → EdgesOk ds path edges →
    ∀ p ∈ findAllPaths (outgoing ds) target maxLength fuel current path
      edges visited, EdgesOk ds p.nodes p.edges := by
  intro fuel
  induction fuel with
  | zero =>
    intro current path edges visited hc he p hp
    simp only [findAllPaths] at hp
    split at hp
    · simp only [List.mem_singleton] at hp
      subst hp
      exact he
    · simp at hp
  | succ f ih =>
    intro current path edges visited hc he p hp
    simp only [findAllPaths] at hp
    split at hp
    · simp only [List.mem_singleton] at hp
      subst hp
      exact he
    · split at hp
      · simp at hp
      · have key : ∀ es, (∀ e ∈ es, e ∈ outgoing ds current) →
            ∀ q ∈ dfsEdges (findAllPaths (outgoing ds) target maxLength f)
              es path edges visited, EdgesOk ds q.nodes q.edges := by
          intro es
          induction es with
          | nil =>
            intro _ q hq
            simp [dfsEdges] at hq
          | cons e rest ihes =>
            obtain ⟨t, eid⟩ := e
            intro hsub q hq
            simp only [dfsEdges, List.mem_append] at hq
            rcases hq with hq | hq
            · split at hq
              · simp at hq
              · obtain ⟨r, hr, hid, hs, ht2⟩ :=
                  mem_outgoing (hsub (t, eid) (List.mem_cons_self _ rest))
                refine ih t (path ++ [t]) (edges ++ [eid]) (t :: visited)
                  (List.mem_append.mpr (Or.inr (List.mem_singleton_self t)))
                  ?_ q hq
                intro eid2 he2
                rcases List.mem_append.mp he2 with he2 | he2
                · exact edgesOk_mono he t eid2 he2
                · rw [List.mem_singleton] at he2
                  subst he2
                  exact ⟨r, hr, hid, by
                    rw [hs]
                    exact List.mem_append.mpr (Or.inl hc), by
                    rw [ht2]
                    exact List.mem_append.mpr
                      (Or.inr (List.mem_singleton_self t))⟩
            · exact ihes (fun e2 he2 => hsub e2 (List.mem_cons_of_mem _ he2)) q hq
        exact key (outgoing ds current) (fun e he2 => he2) p hp

/-- Every path returned by findPaths satisfies the edge invariant. -/
theorem findPaths_edgesOk (ds : Dataset) (srcs tgts : List String) (L : Nat) :
    ∀ p ∈ (findPaths ds srcs tgts L).paths, EdgesOk ds p.nodes p.edges := by
  intro p hp
  have hps : (findPaths ds srcs tgts L).paths =
      srcs.flatMap (fun s => tgts.flatMap (fun t => pairPaths ds L s t)) := rfl
  rw [hps, List.mem_flatMap] at hp
  obtain ⟨s, hs, hp⟩ := hp
  rw [List.mem_flatMap] at hp
  obtain ⟨t, ht, hp⟩ := hp
  simp only [pairPaths] at hp
  split at hp
  · simp at hp
  · split at hp
    · simp at hp
    · split at hp
      · simp at hp
      · exact findAllPaths_edges ds t L L s [s] [] [s]
          (List.mem_singleton_self s) (fun eid he => absurd he
            (List.not_mem_nil eid)) p hp

/-- Claim C6, amended: the filtered entities and relationships are always
subsets of the input ones; and when the input dataset is well formed (its
relationship ids are pairwise distinct and every relationship endpoint is an
entity id), every relationship of the filtered dataset has both endpoints
among the filtered entity ids.  Without that hypothesis the closure part
fails, because the empty-filter branch returns the input unchanged. -/
theorem filter_soundness (ds : Dataset) (srcs tgts : List String) (d : Nat) :
    (∀ e ∈ (filterDataset ds srcs tgts d).entities, e ∈ ds.entities) ∧
    (∀ r ∈ (filterDataset ds srcs tgts d).relationships,
      r ∈ ds.relationships) ∧
    ((ds.relationships.map (fun r => r.id)).Nodup →
     (∀ r ∈ ds.relationships,
        r.source ∈ entityIds ds ∧ r.target ∈ entityIds ds) →
     ∀ r ∈ (filterDataset ds srcs tgts d).relationships,
       r.source ∈ entityIds (filterDataset ds srcs tgts d) ∧
       r.target ∈ entityIds (filterDataset ds srcs tgts d)) := by
  rcases srcs with _ | ⟨s, ss⟩
  · have hred : filterDataset ds [] tgts d = ds := by
      rcases tgts with _ | ⟨t, ts⟩
      · rfl
      · rfl
    rw [hred]
    exact ⟨fun e he => he, fun r hr => hr, fun _ hint r hr => hint r hr⟩
  · rcases tgts with _ | ⟨t, ts⟩
    · -- impact branch
      have hred : filterDataset ds (s :: ss) [] d =
          ⟨ds.entities.filter (fun e =>
            ((s :: ss) ++ (analyzeImpact ds (s :: ss) d).directImpact ++
              (analyzeImpact ds (s :: ss) d).indirectImpact).contains e.id),
           ds.relationships.filter (fun r =>
            ((s :: ss) ++ (analyzeImpact ds (s :: ss) d).directImpact ++
              (analyzeImpact ds (s :: ss) d).indirectImpact).contains r.source &&
            ((s :: ss) ++ (analyzeImpact ds (s :: ss) d).directImpact ++
              (analyzeImpact ds (s :: ss) d).indirectImpact).contains r.target)⟩ := rfl
      rw [hred]
      refine ⟨fun e he => (List.mem_filter.mp he).1,
        fun r hr => (List.mem_filter.mp hr).1, ?_⟩
      intro hnd hint r hr
      obtain ⟨hrds, hcond⟩ := List.mem_filter.mp hr
      rw [Bool.and_eq_true] at hcond
      obtain ⟨hintS, hintT⟩ := hint r hrds
      constructor
      · obtain ⟨e, he, heid⟩ := List.mem_map.mp hintS
        refine List.mem_map.mpr ⟨e, List.mem_filter.mpr ⟨he, ?_⟩, heid⟩
        rw [heid]
        exact hcond.1
      · obtain ⟨e, he, heid⟩ := List.mem_map.mp hintT
        refine List.mem_map.mpr ⟨e, List.mem_filter.mpr ⟨he, ?_⟩, heid⟩
        rw [heid]
        exact hcond.2
    · -- path branch
      have hred : filterDataset ds (s :: ss) (t :: ts) d =
          ⟨ds.entities.filter (fun e =>
            ((findPaths ds (s :: ss) (t :: ts) d).paths.flatMap
              (fun p => p.nodes)).contains e.id),
           ds.relationships.filter (fun r =>
            ((findPaths ds (s :: ss) (t :: ts) d).paths.flatMap
              (fun p => p.edges)).contains r.id)⟩ := rfl
      rw [hred]
      refine ⟨fun e he => (List.mem_filter.mp he).1,
        fun r hr => (List.mem_filter.mp hr).1, ?_⟩
      intro hnd hint r hr
      obtain ⟨hrds, hcond⟩ := List.mem_filter.mp hr
      have hid : r.id ∈ (findPaths ds (s :: ss) (t :: ts) d).paths.flatMap
          (fun p => p.edges) := List.elem_iff.mp hcond
      rw [List.mem_flatMap] at hid
      obtain ⟨p, hp, hidp⟩ := hid
      obtain ⟨r2, hr2, hid2, hs2, ht2⟩ :=
        findPaths_edgesOk ds (s :: ss) (t :: ts) d p hp r.id hidp
      have hrr : r2 = r := List.inj_on_of_nodup_map hnd hr2 hrds hid2
      subst hrr
      obtain ⟨hintS, hintT⟩ := hint r2 hrds
      constructor
      · obtain ⟨e, he, heid⟩ := List.mem_map.mp hintS
        refine List.mem_map.mpr ⟨e, List.mem_filter.mpr ⟨he, ?_⟩, heid⟩
        rw [heid]
        exact List.elem_iff.mpr (List.mem_flatMap.mpr ⟨p, hp, hs2⟩)
      · obtain ⟨e, he, heid⟩ := List.mem_map.mp hintT
        refine List.mem_map.mpr ⟨e, List.mem_filter.mpr ⟨he, ?_⟩, heid⟩
        rw [heid]
        exact List.elem_iff.mpr (List.mem_flatMap.mpr ⟨p, hp, ht2⟩)

/-- Witness for filter_soundness: the closure conclusion on the Scenario A
dataset, whose relationship r12 survives the path filter. -/
theorem filter_soundness_wit :
    (mkRel "r12" "1" "2").source ∈
      entityIds (filterDataset linearDs ["1"] ["3"] 10) ∧
    (mkRel "r12" "1" "2").target ∈
      entityIds (filterDataset linearDs ["1"] ["3"] 10) :=
  (filter_soundness linearDs ["1"] ["3"] 10).2.2 (by decide) (by decide)
    (mkRel "r12" "1" "2") (by decide)
